import Mathlib

/-!
# Verification of the open-objects-script feed pipeline

A shallow embedding, in Lean 4, of the algorithmic core of the
`open-objects-script` repository: the recurrence expander
(`generateDatesWithinTimeWindow` and `getIsoWeekdays`), the RPDE page
validation (`getFirehosePage`), the hash-addressed persistence steps of
`processSessionSeriesItems` and `mergeScheduledSessionAndSessionSeriesAndWrite`,
the geo/attendance segmenter
(`generateSegmentIdentifiersForMergedScheduledSession`), and the per-item
drop decisions of the two item processors.

Modelling conventions:
* Instants ("moments") are integers counting minutes on a local-time axis;
  a calendar day is 1440 minutes and day 0 is a Monday, so
  `isoWeekday` of a moment is `(m / 1440) % 7 + 1`.  Timezone resolution and
  DST are abstracted away (the script runs every schedule in a single
  resolved timezone).
* JavaScript objects coming from JSON are modelled either as typed
  structures (when the code reads a fixed set of fields) or as association
  lists of string keys (when the code spreads whole objects).  JavaScript
  truthiness is modelled explicitly (`none` and the empty string are falsy).
* The generator function `generateDatesWithinTimeWindow` is a JS generator
  whose inner week loop is unbounded; it is embedded with explicit fuel:
  `none` means the computation has not produced a result within the given
  fuel (and, for this generator, never will, since its state does not
  change across week iterations that emit nothing).
* External npm collaborators (`geolib.getDistance`, the SHA-1 of
  `hashString`, the deepmerge of `mergeIntoModelExample`) are taken as
  function parameters: the claims under verification are independent of
  their internals.
-/

/-! ## JavaScript primitives -/

/-- JS string truthiness for an optional string field: `undefined`, `null`
and `""` are falsy. -/
def jsTruthyStr : Option String → Bool
  | none => false
  | some s => s ≠ ""

/-- Whether `t` occurs as a (contiguous) substring of `s`, on the
character-list representation; this is JS `String.prototype.includes`. -/
def charsContain (s t : List Char) : Bool :=
  match s with
  | [] => t.isEmpty
  | _ :: rest => t.isPrefixOf s || charsContain rest t

/-- JS `s.includes(t)`. -/
def jsIncludes (s t : String) : Bool :=
  charsContain s.data t.data

/-- Replace the first occurrence of `t` in `s` by `r`
(JS `s.replace(t, r)` with string arguments replaces only the first
occurrence). -/
def charsReplaceFirst (s t r : List Char) : List Char :=
  match s with
  | [] => if t.isEmpty then r else []
  | c :: rest =>
    if t.isPrefixOf s then r ++ s.drop t.length
    else c :: charsReplaceFirst rest t r

/-- JS `s.replace(t, r)` (first occurrence only). -/
def jsReplaceFirst (s t r : String) : String :=
  ⟨charsReplaceFirst s.data t.data r.data⟩

/-- JS `%` (remainder truncated toward zero) for a positive divisor. -/
def jsRem (a b : Int) : Int :=
  if 0 ≤ a then a % b else -((-a) % b)

/-- JS `Array.prototype.findIndex`: index of the first element satisfying
`p`, or `-1`. -/
def jsFindIndex (p : α → Bool) (l : List α) : Int :=
  match l.findIdx? p with
  | some i => (i : Int)
  | none => -1

/-- Insertion into a `≤`-sorted list of integers. -/
def jsSortInsert (a : Int) : List Int → List Int
  | [] => [a]
  | b :: l => if a ≤ b then a :: b :: l else b :: jsSortInsert a l

/-- A stable ascending sort of a list of integers; models JS
`Array.prototype.sort()` on the (single-digit) ISO weekday numbers, where
the default lexicographic comparison coincides with numeric order. -/
def jsSort : List Int → List Int
  | [] => []
  | a :: l => jsSortInsert a (jsSort l)

/-! ## Time model -/

/-- Minutes per calendar day. -/
def minutesPerDay : Int := 1440

/-- The calendar-day index of a moment (minutes on the local-time axis). -/
def dayOf (m : Int) : Int := m / minutesPerDay

/-- ISO weekday (1 = Monday .. 7 = Sunday) of a calendar-day index;
day 0 is a Monday. -/
def isoWeekdayOfDay (d : Int) : Int := d % 7 + 1

/-- `moment.isoWeekday()` of a moment. -/
def isoWeekdayOfMoment (m : Int) : Int := isoWeekdayOfDay (dayOf m)

/-- `combineYYYYMMDDAndHHMMString`: combine a calendar-day index with a
time of day (minutes past midnight). -/
def combineDayAndTime (d t : Int) : Int := minutesPerDay * d + t

/-- `moment.add(n, 'days')`. -/
def addDays (m d : Int) : Int := m + minutesPerDay * d

/-! ## getIsoWeekdays (src/geoSegment/utils/getIsoWeekdays.js) -/

/-- `getIsoWeekdays(eventSchedule, scheduleTimezone)`.
`byDay = none` models a `byDay` that is not an array; `startDate` is the
schedule's parsed `startDate` as a calendar-day index (`none` when
absent).  The `byDay` loop is the source's else-if chain: each entry is
matched by substring containment against the English weekday names in the
order Monday..Sunday, pushing the first matching weekday number and
skipping entries that match none. -/
def getIsoWeekdays (byDay : Option (List String)) (startDate : Option Int) : List Int :=
  match byDay with
  | none =>
    match startDate with
    | none => []
    | some sd => [isoWeekdayOfDay sd]
  | some items => byDayLoop items
where
  /-- The `for (const byDayItem of eventSchedule.byDay)` loop body. -/
  byDayLoop : List String → List Int
  | [] => []
  | it :: rest =>
    match
      (if jsIncludes it "Monday" then some (1 : Int)
       else if jsIncludes it "Tuesday" then some 2
       else if jsIncludes it "Wednesday" then some 3
       else if jsIncludes it "Thursday" then some 4
       else if jsIncludes it "Friday" then some 5
       else if jsIncludes it "Saturday" then some 6
       else if jsIncludes it "Sunday" then some 7
       else none) with
    | some w => w :: byDayLoop rest
    | none => byDayLoop rest

/-! ## The recurrence expander
(`generateDatesWithinTimeWindow` in src/utils, second concatenated file) -/

/-- `SCHEDULE_TIME_WINDOW_IN_WEEKS = 4`. -/
def scheduleTimeWindowInWeeks : Int := 4

/-- A `MinimalEventSchedule` after parsing: `startTime`/`endTime` are
minutes past midnight, `startDate`/`endDate` are calendar-day indices
(`none` when the corresponding field is absent, which the source
represents with the `INFINITE_PAST`/`INFINITE_FUTURE` sentinels). -/
structure MinimalEventSchedule where
  byDay : Option (List String)
  startTime : Int
  endTime : Int
  startDate : Option Int
  endDate : Option Int
  idTemplate : String
  duration : Option String
deriving DecidableEq

/-- The structural validation performed by `MINIMAL_EVENT_SCHEDULE_SCHEMA`
(JOI): `byDay` must be present, an array of strings, with at least one
entry; `startTime`, `endTime` and `idTemplate` must be present strings
(their presence is guaranteed by the structure's non-optional fields, so
only the `byDay` constraint remains to check). -/
def minimalEventScheduleAccepted (s : MinimalEventSchedule) : Bool :=
  match s.byDay with
  | some l => decide (1 ≤ l.length)
  | none => false

/-- A generated `ScheduledSession` record.  `startDate`/`endDate` are kept
as moments; `id` is the `idTemplate` with `{startDate}` substituted by a
rendering of the start moment (the source renders an ISO-8601 UTC string;
here `toString` of the minute count stands in for that injective
formatting). -/
structure GeneratedScheduledSession where
  id : String
  startDate : Int
  endDate : Int
  duration : Option String
deriving DecidableEq

/-- `latestMoment`: the end of the generation window, the earlier of
`now + 4 weeks` and the schedule's `endDate` combined with `startTime`
(`INFINITE_FUTURE` when `endDate` is absent). -/
def latestMoment (s : MinimalEventSchedule) (now : Int) : Int :=
  let timeWindowEndDate := addDays now (scheduleTimeWindowInWeeks * 7)
  match s.endDate with
  | none => timeWindowEndDate
  | some ed =>
    let scheduleEndDate := combineDayAndTime ed s.startTime
    if timeWindowEndDate < scheduleEndDate then timeWindowEndDate else scheduleEndDate

/-- `nextStartTimeAfterNowMoment`: today's date combined with `startTime`,
advanced one day when that instant has already passed. -/
def nextStartTimeAfterNow (s : MinimalEventSchedule) (now : Int) : Int :=
  let todayWithStartTime := combineDayAndTime (dayOf now) s.startTime
  if todayWithStartTime < now then addDays todayWithStartTime 1 else todayWithStartTime

/-- `earliestMoment`: the later of `nextStartTimeAfterNow` and the
schedule's `startDate` combined with `startTime` (`INFINITE_PAST` when
`startDate` is absent). -/
def earliestMoment (s : MinimalEventSchedule) (now : Int) : Int :=
  let next := nextStartTimeAfterNow s now
  match s.startDate with
  | none => next
  | some sd =>
    let scheduleStartDate := combineDayAndTime sd s.startTime
    if scheduleStartDate < next then next else scheduleStartDate

/-- `isoWeekdayOffsets`: the derived weekdays, sorted, each mapped to its
signed JS-remainder day offset from `earliest`'s weekday. -/
def isoWeekdayOffsets (s : MinimalEventSchedule) (earliest : Int) : List Int :=
  (jsSort (getIsoWeekdays s.byDay s.startDate)).map
    (fun isoWeekday => jsRem (isoWeekday - isoWeekdayOfMoment earliest) 7)

/-- One emitted `scheduledSession` object for a start moment `d`. -/
def mkScheduledSession (s : MinimalEventSchedule) (d : Int) : GeneratedScheduledSession :=
  { id := jsReplaceFirst s.idTemplate "{startDate}" (toString d)
    startDate := d
    endDate := combineDayAndTime (dayOf d) s.endTime
    duration := s.duration }

/-- The consumer loop over one week's block of candidate start dates:
emit candidates in order until one is strictly after `latest`; the `Bool`
records whether the `return` in the consumer fired (stopping all further
generation). -/
def takeUntilAfter (latest : Int) : List Int → List Int × Bool
  | [] => ([], false)
  | d :: rest =>
    if latest < d then ([], true)
    else
      let r := takeUntilAfter latest rest
      (d :: r.1, r.2)

/-- The candidate start dates yielded by
`generateScheduledSessionStartDatesEndlessly` for week `w`: in the first
week (`w = 0`) only the non-negative offsets (weekdays already passed are
skipped), in every subsequent week all offsets, each added to `earliest`
as `7*w + offset` days. -/
def weekCandidates (earliest : Int) (offsets : List Int) (w : Nat) : List Int :=
  (if w = 0 then offsets.filter (fun o => 0 ≤ o) else offsets).map
    (fun o => addDays earliest (7 * (w : Int) + o))

/-- The interleaving of the endless week-by-week generator with the
consuming loop, with explicit fuel bounding the number of week iterations.
`none` means the bounded run did not complete; since the loop's state is
only the week counter, a run that completes for no fuel value models the
JS generator's consumer blocking forever. -/
def generateFromWeek (earliest latest : Int) (offsets : List Int) :
    Nat → Nat → Option (List Int)
  | 0, _ => none
  | fuel + 1, w =>
    match takeUntilAfter latest (weekCandidates earliest offsets w) with
    | (emitted, true) => some emitted
    | (emitted, false) =>
      (generateFromWeek earliest latest offsets fuel (w + 1)).map
        (fun rest => emitted ++ rest)

/-- `generateDatesWithinTimeWindow(eventSchedule)` run at instant `now`,
with `fuel` bounding the week iterations of the inner endless generator.
Returns the finite list of emitted `ScheduledSession`s, or `none` when the
run does not complete within `fuel` weeks. -/
def generateDatesWithinTimeWindow (fuel : Nat) (s : MinimalEventSchedule)
    (now : Int) : Option (List GeneratedScheduledSession) :=
  let latest := latestMoment s now
  let earliest := earliestMoment s now
  if latest < earliest then some []
  else
    (generateFromWeek earliest latest (isoWeekdayOffsets s earliest) fuel 0).map
      (fun dates => dates.map (mkScheduledSession s))

/-! ## RPDE page validation (`getFirehosePage`, src/unnamed/part_009) -/

/-- A feed item as far as page validation inspects it: an `Option` wraps
the whole item (`none` models a `null`/`undefined` array element), and
`state`/`id` are the fields the validator reads (`none` = absent). -/
structure RpdeItemShape where
  state : Option String
  id : Option String
deriving DecidableEq

/-- The raw shape of a fetched page body. `next = none` models a `next`
that is not a string; `items = none` models an `items` that is not an
array. -/
structure RpdePageBody where
  next : Option String
  items : Option (List (Option RpdeItemShape))
deriving DecidableEq

/-- The closed set of error variants `getFirehosePage` can throw. -/
inductive FirehoseError where
  | http404 : FirehoseError
  | nextNotNonEmptyString : FirehoseError
  | itemsNotArray : FirehoseError
  | invalidItem (index : Int) : FirehoseError
deriving DecidableEq

/-- Decidable equality for `Except` results, so that concrete runs of the
page validator can be checked by `decide`. -/
instance {ε α : Type} [DecidableEq ε] [DecidableEq α] : DecidableEq (Except ε α) := fun a b =>
  match a, b with
  | .error e1, .error e2 =>
    if h : e1 = e2 then .isTrue (by rw [h])
    else .isFalse (fun hc => h (by injection hc))
  | .error _, .ok _ => .isFalse (fun hc => by injection hc)
  | .ok _, .error _ => .isFalse (fun hc => by injection hc)
  | .ok a1, .ok a2 =>
    if h : a1 = a2 then .isTrue (by rw [h])
    else .isFalse (fun hc => h (by injection hc))

/-- The predicate of the validator's `findIndex`: the item is null, or its
`state` is neither `updated` nor `deleted`. -/
def rpdeItemInvalid : Option RpdeItemShape → Bool
  | none => true
  | some it => decide (it.state ≠ some "updated" ∧ it.state ≠ some "deleted")

/-- `getFirehosePage(pageUrl, apiKey)`, modulo the HTTP transport: given
the response status and parsed body, either throw one of the error
variants or return `{ nextNextUrl, items }`.  Mirrors the source exactly,
including the `invalidItemIndex > 0` comparison on the result of
`findIndex`. -/
def getFirehosePage (status : Nat) (body : RpdePageBody) :
    Except FirehoseError (String × List (Option RpdeItemShape)) :=
  if status = 404 then .error .http404
  else
    match body.next with
    | none => .error .nextNotNonEmptyString
    | some nextUrl =>
      if nextUrl = "" then .error .nextNotNonEmptyString
      else
        match body.items with
        | none => .error .itemsNotArray
        | some items =>
          let invalidItemIndex := jsFindIndex rpdeItemInvalid items
          if 0 < invalidItemIndex then .error (.invalidItem invalidItemIndex)
          else .ok (nextUrl, items)

/-! ## JSON-object model for the merge and persistence steps -/

/-- A JSON value, one object level deep: a string, a number, an object of
string-valued fields, or an array of strings.  This covers every value the
merge/persistence code of part_001 inspects (`id`, `name`, `superEvent`,
`imin:segment`, `imin:fileIdentifier`). -/
inductive JVal where
  | vstr (s : String)
  | vnum (n : Int)
  | vobj (fields : List (String × String))
  | varr (items : List String)
deriving DecidableEq

/-- A JSON object: an association list from keys to values (first
occurrence of a key wins on lookup, as the constructions below never
produce duplicate keys). -/
abbrev JObj := List (String × JVal)

/-- Lookup in an association list by key; `none` means the key is absent. -/
def alistGet {α : Type} (l : List (String × α)) (k : String) : Option α :=
  (l.find? (fun p => p.1 == k)).map (fun p => p.2)

/-- Property lookup, `o[k]`; `none` means the key is absent. -/
def jsGet (o : JObj) (k : String) : Option JVal :=
  alistGet o k

/-- JS truthiness of a property value: absent, `""` and `0` are falsy;
objects and arrays are truthy. -/
def jsTruthy : Option JVal → Bool
  | none => false
  | some (.vstr s) => s ≠ ""
  | some (.vnum n) => n ≠ 0
  | some (.vobj _) => true
  | some (.varr _) => true

/-- JS `a || b` on property values. -/
def jsOrV (a b : Option JVal) : Option JVal :=
  if jsTruthy a then a else b

/-- JS `a && b` on property values. -/
def jsAndV (a b : Option JVal) : Option JVal :=
  if jsTruthy a then b else a

/-- Object spread `{...a, ...b}`: keys of `b` override keys of `a`. -/
def jsSpread (a b : JObj) : JObj :=
  a.filter (fun p => (jsGet b p.1).isNone) ++ b

/-- Ramda `dissocPath([k], o)` at depth one: remove key `k`. -/
def jsDissoc (o : JObj) (k : String) : JObj :=
  o.filter (fun p => p.1 ≠ k)

/-- Set key `k` to `v` when `some`, remove it when `none` (a spread of
`{k: undefined}` leaves a key that is absent from any JSON output, which
this model identifies with removal). -/
def jsSetOrRemove (o : JObj) (k : String) : Option JVal → JObj
  | some v => jsSpread o [(k, v)]
  | none => jsDissoc o k

/-- Read `o.k.name` where `o.k` may be any value: `undefined` unless the
value is an object with a `name` field. -/
def jsGetNameOfVal (v : Option JVal) : Option JVal :=
  match v with
  | some (.vobj fields) =>
    ((fields.find? (fun p => p.1 == "name")).map (fun p => JVal.vstr p.2))
  | _ => none

/-- The fields of `sessionSeries.superEvent` as a spreadable object
(spreading a non-object contributes nothing). -/
def superEventFields (sessionSeries : JObj) : JObj :=
  match jsGet sessionSeries "superEvent" with
  | some (.vobj fields) => fields.map (fun p => (p.1, JVal.vstr p.2))
  | _ => []

/-- Lines 907–912 of part_001: the merged ScheduledSession record,
`{...sessionSeries.superEvent, ...dissocPath(['superEvent'], sessionSeries),
...scheduledSessionData, ...{name: (sessionSeries.superEvent &&
sessionSeries.superEvent.name) || sessionSeries.name ||
scheduledSessionData.name}}`. -/
def mergedScheduledSessionData (scheduledSessionData sessionSeries : JObj) : JObj :=
  let base :=
    jsSpread (jsSpread (superEventFields sessionSeries) (jsDissoc sessionSeries "superEvent"))
      scheduledSessionData
  let nameVal :=
    jsOrV
      (jsAndV (jsGet sessionSeries "superEvent")
        (jsGetNameOfVal (jsGet sessionSeries "superEvent")))
      (jsOrV (jsGet sessionSeries "name") (jsGet scheduledSessionData "name"))
  jsSetOrRemove base "name" nameVal

/-- The `id` attribute of a record read as the string `hashString` is
applied to (the validated inputs always carry a string `id`). -/
def idString (o : JObj) : String :=
  match jsGet o "id" with
  | some (.vstr s) => s
  | _ => ""

/-! ## The hash-addressed store (part_001, lines 852–948 and 1038–1057) -/

/-- A logged hash-collision warning, carrying the two conflicting ids and
the shared hash, as interpolated into the source's warning message. -/
structure CollisionWarning where
  existingId : Option JVal
  newId : Option JVal
  sharedHash : String
deriving DecidableEq

/-- The relevant slice of the output directory: the JSON files keyed by
path, the per-segment index files (lists of appended entries), and the
warning log. -/
structure GeoFS where
  files : List (String × JObj)
  indexes : List (String × List String)
  warnings : List CollisionWarning
deriving DecidableEq

/-- Read the file at `path`, `null` if it does not exist
(`readJsonNullIfNotExists`). -/
def fsRead (fs : GeoFS) (path : String) : Option JObj :=
  alistGet fs.files path

/-- (Over)write the file at `path`. -/
def fsWrite (fs : GeoFS) (path : String) (content : JObj) : GeoFS :=
  { fs with files := (path, content) :: fs.files.filter (fun p => p.1 ≠ path) }

/-- Append one entry to a segment's index file. -/
def fsAppendIndex (fs : GeoFS) (segmentIdentifier entry : String) : GeoFS :=
  { fs with
    indexes :=
      match fs.indexes.find? (fun p => p.1 == segmentIdentifier) with
      | some p =>
        (segmentIdentifier, p.2 ++ [entry]) ::
          fs.indexes.filter (fun q => q.1 ≠ segmentIdentifier)
      | none => (segmentIdentifier, [entry]) :: fs.indexes }

/-- `getSessionSeriesFilePath`. -/
def sessionSeriesFilePath (h : String) : String :=
  "output/sessionseries/" ++ h ++ ".json"

/-- `getScheduledSessionFilePath`. -/
def scheduledSessionFilePath (segmentIdentifier h : String) : String :=
  "output/segments/" ++ segmentIdentifier ++ "/" ++ h ++ ".json"

/-- The persistence step for a SessionSeries record (part_001, lines
1038–1052): read the object at `hash(item.id)`; an existing object with a
different stored `id` is a hash clash — log a warning and skip the item
(second component `false`); otherwise write the newly derived content
(note: the write happens whether or not an identical-id object already
exists). -/
def writeSessionSeriesToStore (hash : String → String) (itemId : String)
    (content : JObj) (fs : GeoFS) : GeoFS × Bool :=
  let sessionSeriesIdHash := hash itemId
  let path := sessionSeriesFilePath sessionSeriesIdHash
  match fsRead fs path with
  | some existing =>
    if jsGet existing "id" ≠ some (JVal.vstr itemId) then
      ({ fs with
          warnings := fs.warnings ++
            [⟨jsGet existing "id", some (JVal.vstr itemId), sessionSeriesIdHash⟩] },
        false)
    else (fsWrite fs path content, true)
  | none => (fsWrite fs path content, true)

/-- `sessionSeries['imin:segment']`: the segment identifiers a series
record carries (an empty list for a missing or non-array value). -/
def jsSegmentIds (sessionSeries : JObj) : List String :=
  match jsGet sessionSeries "imin:segment" with
  | some (.varr l) => l
  | _ => []

/-- One iteration of the per-segment loop of
`mergeScheduledSessionAndSessionSeriesAndWrite` (part_001, lines 918–947):
check for an existing file at the segment's path, skip with a warning on a
hash clash, otherwise write the merged record, merge it into the segment's
`model.json` (the deepmerge itself is the parameter `modelMerge`), and
append an index entry when the file did not previously exist. -/
def mergeWriteSegmentStep (modelMerge : Option JObj → JObj → JObj)
    (merged : JObj) (scheduledSessionIdHash : String)
    (fs : GeoFS) (segmentIdentifier : String) : GeoFS :=
  let path := scheduledSessionFilePath segmentIdentifier scheduledSessionIdHash
  let modelPath := scheduledSessionFilePath segmentIdentifier "model"
  match fsRead fs path with
  | some existing =>
    if jsGet existing "id" ≠ jsGet merged "id" then
      { fs with
        warnings := fs.warnings ++
          [⟨jsGet existing "id", jsGet merged "id", scheduledSessionIdHash⟩] }
    else
      let fs1 := fsWrite fs path merged
      let fs2 := fsWrite fs1 modelPath (modelMerge (fsRead fs1 modelPath) merged)
      fs2
  | none =>
    let fs1 := fsWrite fs path merged
    let fs2 := fsWrite fs1 modelPath (modelMerge (fsRead fs1 modelPath) merged)
    fsAppendIndex fs2 segmentIdentifier (scheduledSessionIdHash ++ ".json")

/-- `mergeScheduledSessionAndSessionSeriesAndWrite(scheduledSessionData,
sessionSeries)` (part_001, lines 905–948): build the merged record, stamp
`imin:fileIdentifier` with the hash of its id, and run the per-segment
write loop over `sessionSeries['imin:segment']`. -/
def mergeScheduledSessionAndSessionSeriesAndWrite (hash : String → String)
    (modelMerge : Option JObj → JObj → JObj)
    (scheduledSessionData sessionSeries : JObj) (fs : GeoFS) : GeoFS :=
  let merged0 := mergedScheduledSessionData scheduledSessionData sessionSeries
  let scheduledSessionIdHash := hash (idString merged0)
  let merged := jsSpread merged0 [("imin:fileIdentifier", JVal.vstr scheduledSessionIdHash)]
  (jsSegmentIds sessionSeries).foldl
    (mergeWriteSegmentStep modelMerge merged scheduledSessionIdHash) fs

/-! ## The geo/attendance segmenter (src/unnamed/part_008, with config
types from src/unnamed/part_002) -/

/-- `attendanceModeFilter` as validated by the config schema. -/
inductive AttendanceModeFilter where
  | all : AttendanceModeFilter
  | physicalOnly : AttendanceModeFilter
  | virtualOnly : AttendanceModeFilter
deriving DecidableEq

/-- A configured output segment. -/
structure ConfigSegment where
  identifier : String
  latitude : Int
  longitude : Int
  radius : Int
  attendanceModeFilter : AttendanceModeFilter
deriving DecidableEq

/-- A geographic coordinate. -/
structure GeoPoint where
  latitude : Int
  longitude : Int
deriving DecidableEq

/-- The fields of a merged ScheduledSession that the segmenter reads:
`eventAttendanceMode`, `location.geo` and `beta:affiliatedLocation.geo`
(each `none` when the field, or its `geo`, is absent). -/
structure MergedSessionView where
  eventAttendanceMode : Option String
  locationGeo : Option GeoPoint
  affiliatedLocationGeo : Option GeoPoint
deriving DecidableEq

/-- `getEventsEventAttendanceMode`: the item's attendance mode, defaulting
(by JS `||`) to `OfflineEventAttendanceMode` when absent or falsy. -/
def getEventsEventAttendanceMode (item : MergedSessionView) : String :=
  match item.eventAttendanceMode with
  | some s => if s = "" then "https://schema.org/OfflineEventAttendanceMode" else s
  | none => "https://schema.org/OfflineEventAttendanceMode"

/-- `doesEventSupportOnline`. -/
def doesEventSupportOnline (item : MergedSessionView) : Bool :=
  getEventsEventAttendanceMode item = "https://schema.org/OnlineEventAttendanceMode" ∨
    getEventsEventAttendanceMode item = "https://schema.org/MixedEventAttendanceMode"

/-- `doesEventSupportOffline`. -/
def doesEventSupportOffline (item : MergedSessionView) : Bool :=
  getEventsEventAttendanceMode item = "https://schema.org/OfflineEventAttendanceMode" ∨
    getEventsEventAttendanceMode item = "https://schema.org/MixedEventAttendanceMode"

/-- `physicalLocationGeo`: `location.geo` falling back to
`beta:affiliatedLocation.geo`. -/
def physicalLocationGeo (item : MergedSessionView) : Option GeoPoint :=
  match item.locationGeo with
  | some g => some g
  | none => item.affiliatedLocationGeo

/-- The first filter of the segmenter: does the segment's attendance-mode
filter admit this item? -/
def segmentAttendanceFilterAdmits (item : MergedSessionView) (segment : ConfigSegment) : Bool :=
  match segment.attendanceModeFilter with
  | .all => true
  | .physicalOnly => doesEventSupportOffline item
  | .virtualOnly => doesEventSupportOnline item

/-- The second filter of the segmenter: when the item has a physical
location, require great-circle distance (the parameter `dist`, in meters,
modelling `geolib.getDistance`) within the segment's radius (configured in
km). -/
def segmentGeoFilterAdmits (dist : GeoPoint → GeoPoint → Int)
    (item : MergedSessionView) (segment : ConfigSegment) : Bool :=
  match physicalLocationGeo item with
  | none => true
  | some geo =>
    dist geo ⟨segment.latitude, segment.longitude⟩ ≤ segment.radius * 1000

/-- `generateSegmentIdentifiersForMergedScheduledSession(mergedScheduledSession,
segments)`: offline-capable items without a geo are dropped to no
segments; otherwise filter by attendance mode, then by distance, and map
to identifiers. -/
def generateSegmentIdentifiersForMergedScheduledSession
    (dist : GeoPoint → GeoPoint → Int) (item : MergedSessionView)
    (segments : List ConfigSegment) : List String :=
  if (physicalLocationGeo item).isNone ∧ doesEventSupportOffline item then []
  else
    ((segments.filter (segmentAttendanceFilterAdmits item)).filter
      (segmentGeoFilterAdmits dist item)).map (fun segment => segment.identifier)

/-! ## Per-item processor decisions (part_001, lines 954–999 and
1128–1167) -/

/-- The fields of a SessionSeries feed item read by the drop decisions of
`processSessionSeriesItems`. -/
structure SessionSeriesItemView where
  state : String
  id : Option String
  locationGeo : Option GeoPoint
  affiliatedLocationGeo : Option GeoPoint
  eventAttendanceMode : Option String
  presentAsSlots : Bool
  superEventPresentAsSlots : Bool
deriving DecidableEq

/-- The geo a series item resolves to: `data.location.geo`, falling back
to `data['beta:affiliatedLocation'].geo`. -/
def sessionSeriesGeo (item : SessionSeriesItemView) : Option GeoPoint :=
  match item.locationGeo with
  | some g => some g
  | none => item.affiliatedLocationGeo

/-- The `imin:segment` list computed for a series (part_001, lines
987–996): every configured segment within distance. -/
def sessionSeriesSegmentIds (dist : GeoPoint → GeoPoint → Int) (geo : GeoPoint)
    (segments : List ConfigSegment) : List String :=
  (segments.filter (fun segment =>
    dist geo ⟨segment.latitude, segment.longitude⟩ ≤ segment.radius * 1000)).map
    (fun segment => segment.identifier)

/-- Whether `processSessionSeriesItems` drops the item before persisting
anything (part_001, lines 955–999): deleted state, missing/empty id,
no resolvable geo ("Filter virtual sessions"), high-frequency slot data,
or an empty computed segment list. -/
def sessionSeriesItemDropped (dist : GeoPoint → GeoPoint → Int)
    (segments : List ConfigSegment) (item : SessionSeriesItemView) : Bool :=
  if item.state = "deleted" then true
  else if ¬ jsTruthyStr item.id then true
  else
    match sessionSeriesGeo item with
    | none => true
    | some geo =>
      if item.presentAsSlots || item.superEventPresentAsSlots then true
      else (sessionSeriesSegmentIds dist geo segments).isEmpty

/-- The fields of a ScheduledSession feed item read by the drop decisions
of `processScheduledSessionItems`; `startDate` is the parsed start moment
(`none` when absent or falsy). -/
structure ScheduledSessionItemView where
  state : String
  id : Option String
  startDate : Option Int
  superEvent : String
deriving DecidableEq

/-- `WEEKS_IN_FUTURE_TIME_WINDOW = 1`. -/
def weeksInFutureTimeWindow : Int := 1

/-- The per-item decision of `processScheduledSessionItems` (part_001,
lines 1129–1166): returns the item's start moment exactly when the item
survives every filter (not deleted, truthy id, start date present, not in
the past, inside the one-week window, parent series found under
`hash(superEvent)`, and the stored parent's `id` equals the declared
`superEvent`) and is therefore merged and persisted. -/
def processScheduledSessionItemDecision (hash : String → String)
    (seriesStore : String → Option JObj) (now : Int)
    (item : ScheduledSessionItemView) : Option Int :=
  if item.state = "deleted" then none
  else if ¬ jsTruthyStr item.id then none
  else
    match item.startDate with
    | none => none
    | some startDate =>
      if startDate < now then none
      else if addDays now (weeksInFutureTimeWindow * 7) < startDate then none
      else
        match seriesStore (hash item.superEvent) with
        | none => none
        | some sessionSeries =>
          if jsGet sessionSeries "id" ≠ some (JVal.vstr item.superEvent) then none
          else some startDate

/-! ## Association-list lemmas -/

theorem alistGet_nil {α : Type} (k : String) : alistGet ([] : List (String × α)) k = none := rfl

theorem alistGet_cons {α : Type} (p : String × α) (l : List (String × α)) (k : String) :
    alistGet (p :: l) k = if p.1 = k then some p.2 else alistGet l k := by
  by_cases h : p.1 = k
  · rw [if_pos h]
    unfold alistGet
    rw [List.find?_cons_of_pos _ (by simp [h])]
    rfl
  · rw [if_neg h]
    unfold alistGet
    rw [List.find?_cons_of_neg _ (by simp [h])]

theorem alistGet_append {α : Type} (x y : List (String × α)) (k : String) :
    alistGet (x ++ y) k = (alistGet x k).or (alistGet y k) := by
  induction x with
  | nil => simp [alistGet_nil, Option.none_or]
  | cons p rest ih =>
    rw [List.cons_append, alistGet_cons, alistGet_cons]
    by_cases h : p.1 = k
    · simp [h]
    · simp only [if_neg h]
      exact ih

/-- Filtering with a predicate that holds on every pair keyed `k` does not
change the lookup at `k`. -/
theorem alistGet_filter_of_key_kept {α : Type} (l : List (String × α))
    (q : String × α → Bool) (k : String) (hk : ∀ p : String × α, p.1 = k → q p = true) :
    alistGet (l.filter q) k = alistGet l k := by
  induction l with
  | nil => rfl
  | cons p rest ih =>
    rw [List.filter_cons]
    by_cases hq : q p = true
    · rw [if_pos hq, alistGet_cons, alistGet_cons]
      by_cases h : p.1 = k
      · simp [h]
      · simp only [if_neg h]
        exact ih
    · have h : p.1 ≠ k := fun hc => hq (hk p hc)
      rw [if_neg hq, alistGet_cons, if_neg h]
      exact ih

/-- Filtering with a predicate that fails on every pair keyed `k` makes the
lookup at `k` absent. -/
theorem alistGet_filter_of_key_dropped {α : Type} (l : List (String × α))
    (q : String × α → Bool) (k : String) (hk : ∀ p : String × α, p.1 = k → q p = false) :
    alistGet (l.filter q) k = none := by
  unfold alistGet
  rw [List.find?_eq_none.mpr]
  · rfl
  · intro x hx hxk
    have hmem := (List.mem_filter.mp hx).2
    have hx1 : x.1 = k := by simpa using hxk
    rw [hk x hx1] at hmem
    exact Bool.noConfusion hmem

theorem jsGet_spread (a b : JObj) (k : String) :
    jsGet (jsSpread a b) k = if (jsGet b k).isSome then jsGet b k else jsGet a k := by
  show alistGet _ _ = _
  unfold jsSpread
  rw [alistGet_append]
  by_cases hb : (jsGet b k).isSome
  · rw [if_pos hb]
    rw [alistGet_filter_of_key_dropped _ _ _ (fun p hp => by
      show (jsGet b p.1).isNone = false
      rw [hp]
      cases hfb : jsGet b k <;> simp [hfb] at hb ⊢)]
    show Option.or none (jsGet b k) = jsGet b k
    exact Option.none_or
  · have hbn : jsGet b k = none := by
      cases hfb : jsGet b k
      · rfl
      · rw [hfb] at hb
        simp at hb
    rw [if_neg hb]
    rw [alistGet_filter_of_key_kept _ _ _ (fun p hp => by
      show (jsGet b p.1).isNone = true
      rw [hp, hbn]
      rfl)]
    show Option.or (jsGet a k) (jsGet b k) = jsGet a k
    rw [hbn]
    exact Option.or_none

theorem jsGet_dissoc_other (o : JObj) (k f : String) (hf : f ≠ k) :
    jsGet (jsDissoc o k) f = jsGet o f := by
  show alistGet _ _ = _
  unfold jsDissoc
  exact alistGet_filter_of_key_kept _ _ _ (fun p hp => by
    simp [hp]
    exact fun hc => hf (hc ▸ rfl))

theorem jsGet_dissoc_self (o : JObj) (k : String) :
    jsGet (jsDissoc o k) k = none := by
  show alistGet _ _ = _
  unfold jsDissoc
  exact alistGet_filter_of_key_dropped _ _ _ (fun p hp => by simp [hp])

theorem jsGet_singleton_other (k f : String) (v : JVal) (hf : f ≠ k) :
    jsGet [(k, v)] f = none := by
  show alistGet _ _ = _
  rw [alistGet_cons, if_neg (fun hc : k = f => hf hc.symm)]
  rfl

theorem jsGet_singleton_self (k : String) (v : JVal) :
    jsGet [(k, v)] k = some v := by
  show alistGet _ _ = _
  rw [alistGet_cons, if_pos rfl]

theorem jsGet_setOrRemove_other (o : JObj) (k f : String) (v : Option JVal) (hf : f ≠ k) :
    jsGet (jsSetOrRemove o k v) f = jsGet o f := by
  cases v with
  | some w =>
    show jsGet (jsSpread o [(k, w)]) f = jsGet o f
    rw [jsGet_spread, jsGet_singleton_other _ _ _ hf]
    rfl
  | none => exact jsGet_dissoc_other o k f hf

theorem jsGet_setOrRemove_self (o : JObj) (k : String) (v : Option JVal) :
    jsGet (jsSetOrRemove o k v) k = v := by
  cases v with
  | some w =>
    show jsGet (jsSpread o [(k, w)]) k = some w
    rw [jsGet_spread, jsGet_singleton_self]
    rfl
  | none => exact jsGet_dissoc_self o k

/-! ## Store lemmas -/

theorem fsRead_fsWrite_self (fs : GeoFS) (p : String) (c : JObj) :
    fsRead (fsWrite fs p c) p = some c := by
  unfold fsRead fsWrite
  rw [alistGet_cons, if_pos rfl]

theorem fsRead_fsWrite_other (fs : GeoFS) (p q : String) (c : JObj) (h : q ≠ p) :
    fsRead (fsWrite fs p c) q = fsRead fs q := by
  unfold fsRead fsWrite
  rw [alistGet_cons, if_neg (fun hc : p = q => h hc.symm)]
  exact alistGet_filter_of_key_kept _ _ _ (fun r hr => by
    simp [hr]
    exact fun hc => h (hc ▸ rfl))

theorem fsRead_fsAppendIndex (fs : GeoFS) (seg entry p : String) :
    fsRead (fsAppendIndex fs seg entry) p = fsRead fs p := by
  unfold fsRead fsAppendIndex
  cases fs.indexes.find? (fun q => q.1 == seg) <;> rfl

theorem fsAppendIndex_warnings (fs : GeoFS) (seg entry : String) :
    (fsAppendIndex fs seg entry).warnings = fs.warnings := by
  unfold fsAppendIndex
  cases fs.indexes.find? (fun q => q.1 == seg) <;> rfl

theorem fsWrite_warnings (fs : GeoFS) (p : String) (c : JObj) :
    (fsWrite fs p c).warnings = fs.warnings := rfl

theorem fsWrite_indexes (fs : GeoFS) (p : String) (c : JObj) :
    (fsWrite fs p c).indexes = fs.indexes := rfl

/-! ## Sort lemmas -/

theorem mem_jsSortInsert (a x : Int) (l : List Int) :
    x ∈ jsSortInsert a l ↔ x = a ∨ x ∈ l := by
  induction l with
  | nil => simp [jsSortInsert]
  | cons b rest ih =>
    unfold jsSortInsert
    by_cases h : a ≤ b
    · simp [h]
    · simp [h, ih]
      tauto

theorem jsSortInsert_perm (a : Int) (l : List Int) :
    List.Perm (jsSortInsert a l) (a :: l) := by
  induction l with
  | nil => simp [jsSortInsert]
  | cons b rest ih =>
    unfold jsSortInsert
    by_cases h : a ≤ b
    · simp [h]
    · rw [if_neg h]
      exact (List.Perm.cons b ih).trans (List.Perm.swap a b rest)

theorem jsSort_perm (l : List Int) : List.Perm (jsSort l) l := by
  induction l with
  | nil => rfl
  | cons a rest ih =>
    unfold jsSort
    exact (jsSortInsert_perm a _).trans (List.Perm.cons a ih)

theorem mem_jsSort (x : Int) (l : List Int) : x ∈ jsSort l ↔ x ∈ l :=
  (jsSort_perm l).mem_iff

theorem jsSortInsert_sorted (a : Int) (l : List Int)
    (h : List.Pairwise (· ≤ ·) l) : List.Pairwise (· ≤ ·) (jsSortInsert a l) := by
  induction l with
  | nil => simp [jsSortInsert]
  | cons b rest ih =>
    unfold jsSortInsert
    by_cases hab : a ≤ b
    · rw [if_pos hab]
      refine List.Pairwise.cons ?_ h
      intro y hy
      rcases List.mem_cons.mp hy with rfl | hy
      · exact hab
      · exact le_trans hab (List.rel_of_pairwise_cons h hy)
    · rw [if_neg hab]
      refine List.Pairwise.cons ?_ (ih (List.Pairwise.sublist (List.sublist_cons_self b rest) h))
      intro y hy
      rw [mem_jsSortInsert] at hy
      rcases hy with rfl | hy

      · omega
      · exact List.rel_of_pairwise_cons h hy

theorem jsSort_sorted (l : List Int) : List.Pairwise (· ≤ ·) (jsSort l) := by
  induction l with
  | nil => exact List.Pairwise.nil
  | cons a rest ih => exact jsSortInsert_sorted a _ ih

/-! ## Spec-side definitions used by refinement-style claims -/

/-- The English weekday names in the fixed order Monday through Sunday,
with their ISO numbers (spec-side table for the weekday-derivation
claim). -/
def weekdayNamesInOrder : List (String × Int) :=
  [("Monday", 1), ("Tuesday", 2), ("Wednesday", 3), ("Thursday", 4),
   ("Friday", 5), ("Saturday", 6), ("Sunday", 7)]

/-- First table entry whose name occurs as a substring of the given
`byDay` entry, in table order. -/
def firstMatchingWeekday : List (String × Int) → String → Option Int
  | [], _ => none
  | (name, n) :: rest, it =>
    if jsIncludes it name then some n else firstMatchingWeekday rest it

/-- Spec-side weekday of a single `byDay` entry: the first weekday name,
in Monday..Sunday order, contained anywhere in the entry. -/
def specWeekdayOfByDayEntry (it : String) : Option Int :=
  firstMatchingWeekday weekdayNamesInOrder it

/-! ## Claim C10 -/

/-- Claim C10: weekday derivation from `byDay` matches each entry by
substring containment against the English weekday names in the fixed
order Monday through Sunday; an entry containing several weekday names
maps only to the first in that order, an entry containing none is
silently skipped, and duplicate entries produce duplicate weekdays.
Stated as: the source loop equals `filterMap` of the spec-side
first-match derivation, together with the concrete instances named in
the claim (a schema.org URL entry, a multi-name entry, an unrecognized
entry, duplicates). -/
theorem c10_weekday_derivation_matches_ordered_first_substring :
    (∀ (l : List String) (sd : Option Int),
      getIsoWeekdays (some l) sd = l.filterMap specWeekdayOfByDayEntry) ∧
    getIsoWeekdays (some ["https://schema.org/Monday"]) none = [1] ∧
    getIsoWeekdays (some ["TuesdayAndMonday"]) none = [1] ∧
    getIsoWeekdays (some ["MO"]) none = [] ∧
    getIsoWeekdays (some ["Monday", "https://schema.org/Monday"]) none = [1, 1] := by
  refine ⟨?_, by decide, by decide, by decide, by decide⟩
  intro l sd
  show getIsoWeekdays.byDayLoop l = _
  induction l with
  | nil => rfl
  | cons it rest ih =>
    rw [List.filterMap_cons]
    show (match specWeekdayOfByDayEntry it with
      | some w => w :: getIsoWeekdays.byDayLoop rest
      | none => getIsoWeekdays.byDayLoop rest) = _
    cases hw : specWeekdayOfByDayEntry it <;> simp [hw, ih]

/-! ## Claim C2 -/

/-- Claim C2 (code bug): page validation is claimed to reject any page
whose `items` contains, at any index including 0, a null item or an item
with an unexpected state.  The validator's own predicate classifies a
null item as invalid, yet a page whose only invalid item sits at index 0
is accepted (`findIndex` result compared with `> 0` instead of `>= 0`),
while the same invalid item at index 1 is rejected. -/
theorem c2_invalid_item_at_index_zero_accepted :
    rpdeItemInvalid none = true ∧
    getFirehosePage 200 { next := some "https://x/next", items := some [none] }
      = .ok ("https://x/next", [none]) ∧
    getFirehosePage 200
      { next := some "https://x/next",
        items := some [some { state := some "updated", id := none }, none] }
      = .error (.invalidItem 1) := by
  refine ⟨rfl, by decide, by decide⟩

/-! ## Claim C9 -/

theorem doesEventSupportOffline_eq_false_of_online (item : MergedSessionView)
    (h : item.eventAttendanceMode = some "https://schema.org/OnlineEventAttendanceMode") :
    doesEventSupportOffline item = false := by
  unfold doesEventSupportOffline getEventsEventAttendanceMode
  rw [h]
  decide

/-- Claim C9: for every segment whose `attendanceModeFilter` is
`physical-only` and every online-only item (its `eventAttendanceMode` is
`OnlineEventAttendanceMode`), the segment never survives the segmenter's
attendance filter; and its identifier never appears in the assignment
result, provided every configured segment bearing that identifier is also
`physical-only` (identifiers are unique per segment in any sane
configuration). -/
theorem c9_physical_only_segment_excludes_online_only_item
    (dist : GeoPoint → GeoPoint → Int) (item : MergedSessionView)
    (segments : List ConfigSegment) (seg : ConfigSegment)
    (honline : item.eventAttendanceMode =
      some "https://schema.org/OnlineEventAttendanceMode")
    (hseg : seg.attendanceModeFilter = AttendanceModeFilter.physicalOnly)
    (huniq : ∀ s ∈ segments, s.identifier = seg.identifier →
      s.attendanceModeFilter = AttendanceModeFilter.physicalOnly) :
    seg ∉ segments.filter (segmentAttendanceFilterAdmits item) ∧
    seg.identifier ∉
      generateSegmentIdentifiersForMergedScheduledSession dist item segments := by
  have hoff := doesEventSupportOffline_eq_false_of_online item honline
  constructor
  · intro hmem
    have hadm := (List.mem_filter.mp hmem).2
    rw [segmentAttendanceFilterAdmits, hseg, hoff] at hadm
    exact Bool.noConfusion hadm
  · intro hmem
    unfold generateSegmentIdentifiersForMergedScheduledSession at hmem
    rw [if_neg (by rw [hoff]; simp)] at hmem
    rcases List.mem_map.mp hmem with ⟨s, hs, hsid⟩
    have hs1 := List.mem_filter.mp hs
    have hs2 := List.mem_filter.mp hs1.1
    have hphys := huniq s hs2.1 hsid
    have hadm := hs2.2
    rw [segmentAttendanceFilterAdmits, hphys, hoff] at hadm
    exact Bool.noConfusion hadm

/-- Witness for C9 at a concrete input: a single physical-only segment
and an online-only item. -/
theorem c9_physical_only_segment_excludes_online_only_item_witness :
    let seg : ConfigSegment :=
      { identifier := "london", latitude := 51, longitude := 0, radius := 25,
        attendanceModeFilter := AttendanceModeFilter.physicalOnly }
    let item : MergedSessionView :=
      { eventAttendanceMode := some "https://schema.org/OnlineEventAttendanceMode",
        locationGeo := none, affiliatedLocationGeo := none }
    seg ∉ [seg].filter (segmentAttendanceFilterAdmits item) ∧
    "london" ∉
      generateSegmentIdentifiersForMergedScheduledSession (fun _ _ => 0) item [seg] :=
  c9_physical_only_segment_excludes_online_only_item (fun _ _ => 0) _ _ _
    rfl rfl (by decide)

/-! ## Claim C6 -/

/-- Claim C6 (counterexample): the claim says a virtual-only
(online-capable) series with no location is retained and processed; the
code drops every series without a resolvable geo, whatever its attendance
mode.  The concrete item below is in state `updated`, has an id, has
`eventAttendanceMode = OnlineEventAttendanceMode` and no location, and is
dropped. -/
theorem c6_online_only_series_without_location_is_dropped :
    let item : SessionSeriesItemView :=
      { state := "updated", id := some "series-1", locationGeo := none,
        affiliatedLocationGeo := none,
        eventAttendanceMode := some "https://schema.org/OnlineEventAttendanceMode",
        presentAsSlots := false, superEventPresentAsSlots := false }
    sessionSeriesGeo item = none ∧
    sessionSeriesItemDropped (fun _ _ => 0)
      [{ identifier := "london", latitude := 51, longitude := 0, radius := 25,
         attendanceModeFilter := AttendanceModeFilter.all }] item = true := by
  exact ⟨rfl, by decide⟩

/-- Claim C6 (amended): `processSessionSeriesItems` drops every series
item that lacks a resolvable geographic coordinate, regardless of its
attendance mode; indeed the drop decision never consults
`eventAttendanceMode` at all. -/
theorem c6_series_without_geo_always_dropped
    (dist : GeoPoint → GeoPoint → Int) (segments : List ConfigSegment)
    (item : SessionSeriesItemView) :
    (sessionSeriesGeo item = none →
      sessionSeriesItemDropped dist segments item = true) ∧
    (∀ am, sessionSeriesItemDropped dist segments
      { item with eventAttendanceMode := am } =
      sessionSeriesItemDropped dist segments item) := by
  constructor
  · intro h
    unfold sessionSeriesItemDropped
    rw [h]
    split_ifs <;> rfl
  · intro am
    cases item
    rfl

/-- Witness for C6 (amended) at a concrete input. -/
theorem c6_series_without_geo_always_dropped_witness :
    let item : SessionSeriesItemView :=
      { state := "updated", id := some "series-2", locationGeo := none,
        affiliatedLocationGeo := none, eventAttendanceMode := none,
        presentAsSlots := false, superEventPresentAsSlots := false }
    sessionSeriesItemDropped (fun _ _ => 0) [] item = true :=
  (c6_series_without_geo_always_dropped (fun _ _ => 0) [] _).1 rfl

/-! ## Claim C5 -/

/-- Spec-side display-name precedence, as amended: prefer the series
`superEvent`'s name, then the series' own name, then the occurrence's
name (at each stage skipping absent or falsy values). -/
def specDisplayName (scheduledSessionData sessionSeries : JObj) : Option JVal :=
  let superEventName := jsGetNameOfVal (jsGet sessionSeries "superEvent")
  if jsTruthy superEventName then superEventName
  else if jsTruthy (jsGet sessionSeries "name") then jsGet sessionSeries "name"
  else jsGet scheduledSessionData "name"

theorem jsGetNameOfVal_of_falsy (v : Option JVal) (h : jsTruthy v = false) :
    jsGetNameOfVal v = none := by
  cases v with
  | none => rfl
  | some val =>
    cases val with
    | vstr s => rfl
    | vnum n => rfl
    | vobj fields => exact absurd h (by simp [jsTruthy])
    | varr items => rfl

/-- Claim C5 (counterexample): the claim says the occurrence's own name is
preferred; in the code the series `superEvent`'s name wins whenever it is
present, as this concrete merge shows. -/
theorem c5_occurrence_name_not_preferred :
    let ss : JObj := [("id", JVal.vstr "sess-1"), ("name", JVal.vstr "Occurrence name")]
    let ser : JObj := [("name", JVal.vstr "Series name"),
                       ("superEvent", JVal.vobj [("name", "SuperEvent name")])]
    jsGet ss "name" = some (JVal.vstr "Occurrence name") ∧
    jsGet (mergedScheduledSessionData ss ser) "name"
      = some (JVal.vstr "SuperEvent name") := by
  exact ⟨by decide, by decide⟩

/-- Claim C5 (amended): in the merged record every field defined by the
occurrence takes the occurrence's value — except the display name, which
falls back through series.superEvent → series → occurrence (the reverse
of the claimed direction). -/
theorem c5_merge_precedence (scheduledSessionData sessionSeries : JObj) :
    (∀ f v, f ≠ "name" → jsGet scheduledSessionData f = some v →
      jsGet (mergedScheduledSessionData scheduledSessionData sessionSeries) f = some v) ∧
    jsGet (mergedScheduledSessionData scheduledSessionData sessionSeries) "name"
      = specDisplayName scheduledSessionData sessionSeries := by
  constructor
  · intro f v hf hss
    unfold mergedScheduledSessionData
    rw [jsGet_setOrRemove_other _ _ _ _ hf]
    rw [jsGet_spread]
    rw [hss]
    rfl
  · unfold mergedScheduledSessionData
    rw [jsGet_setOrRemove_self]
    unfold specDisplayName jsOrV jsAndV jsGetNameOfVal
    cases hsup : jsGet sessionSeries "superEvent" with
    | none => simp [jsTruthy]
    | some val => cases val <;> simp [jsTruthy] <;> split_ifs <;> simp_all

/-- Witness for C5 (amended) at a concrete input: the occurrence's `id`
survives the merge, and the display name follows the amended
precedence. -/
theorem c5_merge_precedence_witness :
    let ss : JObj := [("id", JVal.vstr "sess-2"), ("name", JVal.vstr "Occ")]
    let ser : JObj := [("name", JVal.vstr "Ser"), ("imin:segment", JVal.varr [])]
    ("id" ≠ "name") ∧ jsGet ss "id" = some (JVal.vstr "sess-2") ∧
    jsGet (mergedScheduledSessionData ss ser) "id" = some (JVal.vstr "sess-2") := by
  refine ⟨by decide, by decide, ?_⟩
  exact (c5_merge_precedence _ _).1 "id" (JVal.vstr "sess-2") (by decide) (by decide)

/-! ## Claim C3 -/

theorem scheduledSessionFilePath_inj_hash (seg h1 h2 : String)
    (h : scheduledSessionFilePath seg h1 = scheduledSessionFilePath seg h2) : h1 = h2 := by
  unfold scheduledSessionFilePath at h
  have hd := congrArg String.data h
  simp only [String.data_append] at hd
  exact congrArg String.mk (List.append_cancel_left (List.append_cancel_right hd))

/-- Claim C3 (counterexample): the claim says that when the stored object's
id equals the incoming raw id, the persistence step performs no rewrite and
the existing file's content is left unchanged.  Concretely, re-receiving a
series with the same id but updated data overwrites the stored file with
the new content. -/
theorem c3_identical_id_still_written :
    let hash : String → String := fun _ => "HASH"
    let oldContent : JObj := [("id", JVal.vstr "a"), ("v", JVal.vstr "1")]
    let newContent : JObj := [("id", JVal.vstr "a"), ("v", JVal.vstr "2")]
    let fs0 : GeoFS :=
      { files := [(sessionSeriesFilePath "HASH", oldContent)], indexes := [], warnings := [] }
    jsGet oldContent "id" = some (JVal.vstr "a") ∧
    fsRead (writeSessionSeriesToStore hash "a" newContent fs0).1
        (sessionSeriesFilePath "HASH") = some newContent ∧
    newContent ≠ oldContent := by
  exact ⟨by decide, by decide, by decide⟩

/-- Claim C3 (amended): when the object already stored at `hash(rawId)`
carries the same `id`, the code does not treat the record as already
persisted: it overwrites the file with the newly derived content (for
occurrence records additionally skipping the duplicate index append);
only an id mismatch skips the write. -/
theorem c3_identical_id_overwrites (hash : String → String)
    (modelMerge : Option JObj → JObj → JObj) :
    (∀ (itemId : String) (content : JObj) (fs : GeoFS) (existing : JObj),
      fsRead fs (sessionSeriesFilePath (hash itemId)) = some existing →
      jsGet existing "id" = some (JVal.vstr itemId) →
      writeSessionSeriesToStore hash itemId content fs
        = (fsWrite fs (sessionSeriesFilePath (hash itemId)) content, true)) ∧
    (∀ (merged : JObj) (idHash : String) (fs : GeoFS) (seg : String) (existing : JObj),
      fsRead fs (scheduledSessionFilePath seg idHash) = some existing →
      jsGet existing "id" = jsGet merged "id" →
      idHash ≠ "model" →
      fsRead (mergeWriteSegmentStep modelMerge merged idHash fs seg)
          (scheduledSessionFilePath seg idHash) = some merged ∧
      (mergeWriteSegmentStep modelMerge merged idHash fs seg).indexes = fs.indexes) := by
  constructor
  · intro itemId content fs existing hread hid
    simp only [writeSessionSeriesToStore, hread]
    rw [if_neg (fun hne => hne hid)]
  · intro merged idHash fs seg existing hread hid hmodel
    have hpne : scheduledSessionFilePath seg idHash ≠ scheduledSessionFilePath seg "model" :=
      fun hc => hmodel (scheduledSessionFilePath_inj_hash seg idHash "model" hc)
    simp only [mergeWriteSegmentStep, hread]
    rw [if_neg (fun hne => hne hid)]
    constructor
    · rw [fsRead_fsWrite_other _ _ _ _ hpne]
      exact fsRead_fsWrite_self _ _ _
    · rfl

/-- Witness for C3 (amended) at concrete inputs, exercising both the
series step and the occurrence per-segment step. -/
theorem c3_identical_id_overwrites_witness :
    let hash : String → String := fun _ => "HASH"
    let modelMerge : Option JObj → JObj → JObj := fun _ o => o
    let existingSeries : JObj := [("id", JVal.vstr "a"), ("v", JVal.vstr "1")]
    let newSeries : JObj := [("id", JVal.vstr "a"), ("v", JVal.vstr "2")]
    let fs0 : GeoFS :=
      { files := [(sessionSeriesFilePath "HASH", existingSeries)], indexes := [], warnings := [] }
    let merged : JObj := [("id", JVal.vstr "occ-1")]
    let existingOcc : JObj := [("id", JVal.vstr "occ-1"), ("w", JVal.vstr "0")]
    let fs1 : GeoFS :=
      { files := [(scheduledSessionFilePath "s1" "OH", existingOcc)], indexes := [], warnings := [] }
    writeSessionSeriesToStore hash "a" newSeries fs0
      = (fsWrite fs0 (sessionSeriesFilePath "HASH") newSeries, true) ∧
    fsRead (mergeWriteSegmentStep modelMerge merged "OH" fs1 "s1")
        (scheduledSessionFilePath "s1" "OH") = some merged ∧
    (mergeWriteSegmentStep modelMerge merged "OH" fs1 "s1").indexes = fs1.indexes := by
  refine ⟨?_, ?_, ?_⟩
  · exact (c3_identical_id_overwrites (fun _ => "HASH") (fun _ o => o)).1
      "a" [("id", JVal.vstr "a"), ("v", JVal.vstr "2")]
      { files := [(sessionSeriesFilePath "HASH", [("id", JVal.vstr "a"), ("v", JVal.vstr "1")])],
        indexes := [], warnings := [] }
      [("id", JVal.vstr "a"), ("v", JVal.vstr "1")] (by decide) (by decide)
  · exact ((c3_identical_id_overwrites (fun _ => "HASH") (fun _ o => o)).2
      [("id", JVal.vstr "occ-1")] "OH"
      { files := [(scheduledSessionFilePath "s1" "OH",
          [("id", JVal.vstr "occ-1"), ("w", JVal.vstr "0")])], indexes := [], warnings := [] }
      "s1" [("id", JVal.vstr "occ-1"), ("w", JVal.vstr "0")]
      (by decide) (by decide) (by decide)).1
  · exact ((c3_identical_id_overwrites (fun _ => "HASH") (fun _ o => o)).2
      [("id", JVal.vstr "occ-1")] "OH"
      { files := [(scheduledSessionFilePath "s1" "OH",
          [("id", JVal.vstr "occ-1"), ("w", JVal.vstr "0")])], indexes := [], warnings := [] }
      "s1" [("id", JVal.vstr "occ-1"), ("w", JVal.vstr "0")]
      (by decide) (by decide) (by decide)).2

/-! ## Claim C4 -/

theorem mergeWriteSegmentStep_warnings_mono (modelMerge : Option JObj → JObj → JObj)
    (merged : JObj) (idHash s : String) (fs : GeoFS) (w : CollisionWarning)
    (hw : w ∈ fs.warnings) :
    w ∈ (mergeWriteSegmentStep modelMerge merged idHash fs s).warnings := by
  cases hr : fsRead fs (scheduledSessionFilePath s idHash) with
  | some existing =>
    simp only [mergeWriteSegmentStep, hr]
    split_ifs with hc
    · exact List.mem_append_left _ hw
    · exact hw
  | none =>
    simp only [mergeWriteSegmentStep, hr]
    rw [fsAppendIndex_warnings]
    exact hw

theorem foldl_mergeWriteSegmentStep_warnings_mono (modelMerge : Option JObj → JObj → JObj)
    (merged : JObj) (idHash : String) (l : List String) :
    ∀ (fs : GeoFS) (w : CollisionWarning), w ∈ fs.warnings →
      w ∈ (l.foldl (mergeWriteSegmentStep modelMerge merged idHash) fs).warnings := by
  induction l with
  | nil => intro fs w hw; exact hw
  | cons s rest ih =>
    intro fs w hw
    exact ih _ w (mergeWriteSegmentStep_warnings_mono modelMerge merged idHash s fs w hw)

theorem mergeWriteSegmentStep_collision_preserved (modelMerge : Option JObj → JObj → JObj)
    (merged : JObj) (idHash s : String) (fs : GeoFS) (p : String) (existing : JObj)
    (hp : fsRead fs p = some existing)
    (hid : jsGet existing "id" ≠ jsGet merged "id")
    (hm : scheduledSessionFilePath s "model" ≠ p) :
    fsRead (mergeWriteSegmentStep modelMerge merged idHash fs s) p = some existing ∧
    (scheduledSessionFilePath s idHash = p →
      CollisionWarning.mk (jsGet existing "id") (jsGet merged "id") idHash
        ∈ (mergeWriteSegmentStep modelMerge merged idHash fs s).warnings) := by
  by_cases hpath : scheduledSessionFilePath s idHash = p
  · have hr : fsRead fs (scheduledSessionFilePath s idHash) = some existing := by
      rw [hpath]; exact hp
    simp only [mergeWriteSegmentStep, hr]
    rw [if_pos hid]
    exact ⟨hp, fun _ => List.mem_append_right _ (List.mem_singleton.mpr rfl)⟩
  · cases hr : fsRead fs (scheduledSessionFilePath s idHash) with
    | some e2 =>
      simp only [mergeWriteSegmentStep, hr]
      split_ifs with hc
      · exact ⟨hp, fun hcp => absurd hcp hpath⟩
      · refine ⟨?_, fun hcp => absurd hcp hpath⟩
        rw [fsRead_fsWrite_other _ _ _ _ (fun hcc => hm hcc.symm)]
        rw [fsRead_fsWrite_other _ _ _ _ (fun hcc => hpath hcc.symm)]
        exact hp
    | none =>
      simp only [mergeWriteSegmentStep, hr]
      refine ⟨?_, fun hcp => absurd hcp hpath⟩
      rw [fsRead_fsAppendIndex]
      rw [fsRead_fsWrite_other _ _ _ _ (fun hcc => hm hcc.symm)]
      rw [fsRead_fsWrite_other _ _ _ _ (fun hcc => hpath hcc.symm)]
      exact hp

theorem foldl_mergeWriteSegmentStep_collision (modelMerge : Option JObj → JObj → JObj)
    (merged : JObj) (idHash : String) (p : String) (existing : JObj)
    (hid : jsGet existing "id" ≠ jsGet merged "id") (l : List String) :
    ∀ fs : GeoFS, fsRead fs p = some existing →
      (∀ s ∈ l, scheduledSessionFilePath s "model" ≠ p) →
      fsRead (l.foldl (mergeWriteSegmentStep modelMerge merged idHash) fs) p = some existing ∧
      (∀ s ∈ l, scheduledSessionFilePath s idHash = p →
        CollisionWarning.mk (jsGet existing "id") (jsGet merged "id") idHash
          ∈ (l.foldl (mergeWriteSegmentStep modelMerge merged idHash) fs).warnings) := by
  induction l with
  | nil =>
    intro fs hp _
    exact ⟨hp, fun s hs => absurd hs (List.not_mem_nil s)⟩
  | cons s0 rest ih =>
    intro fs hp hm
    have hstep := mergeWriteSegmentStep_collision_preserved modelMerge merged idHash s0 fs
      p existing hp hid (hm s0 (List.mem_cons_self s0 rest))
    have hrest := ih (mergeWriteSegmentStep modelMerge merged idHash fs s0) hstep.1
      (fun s hs => hm s (List.mem_cons_of_mem s0 hs))
    refine ⟨hrest.1, ?_⟩
    intro s hs hsp
    rcases List.mem_cons.mp hs with rfl | hs2
    · exact foldl_mergeWriteSegmentStep_warnings_mono modelMerge merged idHash rest _ _
        (hstep.2 hsp)
    · exact hrest.2 s hs2 hsp

/-- Claim C4: a genuine hash collision (the object already stored at the
target path carries a different id) is never overwritten and is reported:
the series step leaves the store untouched, records a warning carrying
both ids and the shared hash, and skips the item; the occurrence writer
leaves the colliding segment file untouched across its whole per-segment
loop and records the corresponding warning. -/
theorem c4_collision_skips_write_and_warns (hash : String → String)
    (modelMerge : Option JObj → JObj → JObj) :
    (∀ (itemId : String) (content : JObj) (fs : GeoFS) (existing : JObj),
      fsRead fs (sessionSeriesFilePath (hash itemId)) = some existing →
      jsGet existing "id" ≠ some (JVal.vstr itemId) →
      writeSessionSeriesToStore hash itemId content fs
        = ({ fs with warnings := fs.warnings ++
              [⟨jsGet existing "id", some (JVal.vstr itemId), hash itemId⟩] }, false)) ∧
    (∀ (scheduledSessionData sessionSeries : JObj) (fs : GeoFS) (seg : String)
        (existing : JObj),
      seg ∈ jsSegmentIds sessionSeries →
      fsRead fs (scheduledSessionFilePath seg
        (hash (idString (mergedScheduledSessionData scheduledSessionData sessionSeries))))
        = some existing →
      jsGet existing "id" ≠
        jsGet (jsSpread (mergedScheduledSessionData scheduledSessionData sessionSeries)
          [("imin:fileIdentifier", JVal.vstr (hash (idString
            (mergedScheduledSessionData scheduledSessionData sessionSeries))))]) "id" →
      (∀ s ∈ jsSegmentIds sessionSeries, scheduledSessionFilePath s "model" ≠
        scheduledSessionFilePath seg (hash (idString
          (mergedScheduledSessionData scheduledSessionData sessionSeries)))) →
      fsRead (mergeScheduledSessionAndSessionSeriesAndWrite hash modelMerge
          scheduledSessionData sessionSeries fs)
          (scheduledSessionFilePath seg (hash (idString
            (mergedScheduledSessionData scheduledSessionData sessionSeries))))
        = some existing ∧
      CollisionWarning.mk (jsGet existing "id")
          (jsGet (jsSpread (mergedScheduledSessionData scheduledSessionData sessionSeries)
            [("imin:fileIdentifier", JVal.vstr (hash (idString
              (mergedScheduledSessionData scheduledSessionData sessionSeries))))]) "id")
          (hash (idString (mergedScheduledSessionData scheduledSessionData sessionSeries)))
        ∈ (mergeScheduledSessionAndSessionSeriesAndWrite hash modelMerge
            scheduledSessionData sessionSeries fs).warnings) := by
  constructor
  · intro itemId content fs existing hread hid
    simp only [writeSessionSeriesToStore, hread]
    rw [if_pos hid]
  · intro scheduledSessionData sessionSeries fs seg existing hseg hread hid hmodel
    have hfold := foldl_mergeWriteSegmentStep_collision modelMerge
      (jsSpread (mergedScheduledSessionData scheduledSessionData sessionSeries)
        [("imin:fileIdentifier", JVal.vstr (hash (idString
          (mergedScheduledSessionData scheduledSessionData sessionSeries))))])
      (hash (idString (mergedScheduledSessionData scheduledSessionData sessionSeries)))
      (scheduledSessionFilePath seg (hash (idString
        (mergedScheduledSessionData scheduledSessionData sessionSeries))))
      existing hid (jsSegmentIds sessionSeries) fs hread hmodel
    exact ⟨hfold.1, hfold.2 seg hseg rfl⟩

/-- Witness for C4 at concrete inputs, exercising both conjuncts. -/
theorem c4_collision_skips_write_and_warns_witness :
    let hash : String → String := fun _ => "H"
    let modelMerge : Option JObj → JObj → JObj := fun _ o => o
    let existingSeries : JObj := [("id", JVal.vstr "other-series")]
    let fs0 : GeoFS :=
      { files := [(sessionSeriesFilePath "H", existingSeries)], indexes := [], warnings := [] }
    let ssData : JObj := [("id", JVal.vstr "occ-9")]
    let series : JObj := [("id", JVal.vstr "ser-9"), ("imin:segment", JVal.varr ["s1"])]
    let existingOcc : JObj := [("id", JVal.vstr "other-occ")]
    let fs1 : GeoFS :=
      { files := [(scheduledSessionFilePath "s1" "H", existingOcc)],
        indexes := [], warnings := [] }
    writeSessionSeriesToStore hash "new-series" [("id", JVal.vstr "new-series")] fs0
      = ({ fs0 with warnings := fs0.warnings ++
            [⟨some (JVal.vstr "other-series"), some (JVal.vstr "new-series"), "H"⟩] }, false) ∧
    fsRead (mergeScheduledSessionAndSessionSeriesAndWrite hash modelMerge ssData series fs1)
        (scheduledSessionFilePath "s1" "H") = some existingOcc ∧
    CollisionWarning.mk (some (JVal.vstr "other-occ"))
        (jsGet (jsSpread (mergedScheduledSessionData ssData series)
          [("imin:fileIdentifier", JVal.vstr "H")]) "id") "H"
      ∈ (mergeScheduledSessionAndSessionSeriesAndWrite hash modelMerge ssData series fs1).warnings := by
  refine ⟨?_, ?_, ?_⟩
  · exact (c4_collision_skips_write_and_warns (fun _ => "H") (fun _ o => o)).1
      "new-series" [("id", JVal.vstr "new-series")]
      { files := [(sessionSeriesFilePath "H", [("id", JVal.vstr "other-series")])],
        indexes := [], warnings := [] }
      [("id", JVal.vstr "other-series")] (by decide) (by decide)
  · exact ((c4_collision_skips_write_and_warns (fun _ => "H") (fun _ o => o)).2
      [("id", JVal.vstr "occ-9")]
      [("id", JVal.vstr "ser-9"), ("imin:segment", JVal.varr ["s1"])]
      { files := [(scheduledSessionFilePath "s1" "H", [("id", JVal.vstr "other-occ")])],
        indexes := [], warnings := [] }
      "s1" [("id", JVal.vstr "other-occ")]
      (by decide) (by decide) (by decide) (by decide)).1
  · exact ((c4_collision_skips_write_and_warns (fun _ => "H") (fun _ o => o)).2
      [("id", JVal.vstr "occ-9")]
      [("id", JVal.vstr "ser-9"), ("imin:segment", JVal.varr ["s1"])]
      { files := [(scheduledSessionFilePath "s1" "H", [("id", JVal.vstr "other-occ")])],
        indexes := [], warnings := [] }
      "s1" [("id", JVal.vstr "other-occ")]
      (by decide) (by decide) (by decide) (by decide)).2

/-! ## Expander lemmas -/

theorem weekCandidates_nil_offsets (earliest : Int) (w : Nat) :
    weekCandidates earliest [] w = [] := by
  unfold weekCandidates
  cases w <;> rfl

theorem generateFromWeek_nil_offsets (earliest latest : Int) :
    ∀ (fuel w : Nat), generateFromWeek earliest latest [] fuel w = none := by
  intro fuel
  induction fuel with
  | zero => intro w; rfl
  | succ n ih =>
    intro w
    show (match takeUntilAfter latest (weekCandidates earliest [] w) with
      | (emitted, true) => some emitted
      | (emitted, false) =>
        (generateFromWeek earliest latest [] n (w + 1)).map (fun rest => emitted ++ rest)) = none
    rw [weekCandidates_nil_offsets]
    show (generateFromWeek earliest latest [] n (w + 1)).map _ = none
    rw [ih (w + 1)]
    rfl

theorem takeUntilAfter_cons (latest d : Int) (rest : List Int) :
    takeUntilAfter latest (d :: rest)
      = if latest < d then ([], true)
        else (d :: (takeUntilAfter latest rest).1, (takeUntilAfter latest rest).2) := by
  by_cases h : latest < d <;> simp [takeUntilAfter, h]

theorem takeUntilAfter_mem (latest : Int) (l : List Int) :
    ∀ d ∈ (takeUntilAfter latest l).1, d ∈ l ∧ d ≤ latest := by
  induction l with
  | nil => intro d hd; exact absurd hd (List.not_mem_nil d)
  | cons a rest ih =>
    intro d hd
    rw [takeUntilAfter_cons] at hd
    by_cases h : latest < a
    · rw [if_pos h] at hd
      exact absurd hd (List.not_mem_nil d)
    · rw [if_neg h] at hd
      rcases List.mem_cons.mp hd with rfl | hd2
      · exact ⟨List.mem_cons_self _ _, by omega⟩
      · have := ih d hd2
        exact ⟨List.mem_cons_of_mem _ this.1, this.2⟩

theorem takeUntilAfter_sublist (latest : Int) (l : List Int) :
    ((takeUntilAfter latest l).1).Sublist l := by
  induction l with
  | nil => exact List.nil_sublist _
  | cons a rest ih =>
    rw [takeUntilAfter_cons]
    by_cases h : latest < a
    · rw [if_pos h]
      exact List.nil_sublist _
    · rw [if_neg h]
      exact List.Sublist.cons₂ a ih

theorem weekCandidates_mem (earliest : Int) (offsets : List Int) (w : Nat) (d : Int)
    (hd : d ∈ weekCandidates earliest offsets w) :
    ∃ o ∈ offsets, d = addDays earliest (7 * (w : Int) + o) ∧ (w = 0 → 0 ≤ o) := by
  unfold weekCandidates at hd
  rcases List.mem_map.mp hd with ⟨o, ho, rfl⟩
  by_cases hw : w = 0
  · rw [if_pos hw] at ho
    have hf := List.mem_filter.mp ho
    exact ⟨o, hf.1, rfl, fun _ => by simpa using hf.2⟩
  · rw [if_neg hw] at ho
    exact ⟨o, ho, rfl, fun hc => absurd hc hw⟩

theorem getIsoWeekdays_byDayChain_bounds (it : String) (w : Int)
    (h : (if jsIncludes it "Monday" then some (1 : Int)
       else if jsIncludes it "Tuesday" then some 2
       else if jsIncludes it "Wednesday" then some 3
       else if jsIncludes it "Thursday" then some 4
       else if jsIncludes it "Friday" then some 5
       else if jsIncludes it "Saturday" then some 6
       else if jsIncludes it "Sunday" then some 7
       else none) = some w) : 1 ≤ w ∧ w ≤ 7 := by
  split_ifs at h <;> (injection h with h2; omega)

theorem isoWeekdayOfDay_bounds (d : Int) : 1 ≤ isoWeekdayOfDay d ∧ isoWeekdayOfDay d ≤ 7 := by
  unfold isoWeekdayOfDay
  have h1 : 0 ≤ d % 7 := Int.emod_nonneg d (by norm_num)
  have h2 : d % 7 < 7 := Int.emod_lt_of_pos d (by norm_num)
  omega

theorem getIsoWeekdays_bounds (byDay : Option (List String)) (startDate : Option Int) :
    ∀ x ∈ getIsoWeekdays byDay startDate, 1 ≤ x ∧ x ≤ 7 := by
  cases byDay with
  | none =>
    cases startDate with
    | none => intro x hx; exact absurd hx (List.not_mem_nil x)
    | some sd =>
      intro x hx
      rcases List.mem_singleton.mp hx with rfl
      exact isoWeekdayOfDay_bounds sd
  | some items =>
    show ∀ x ∈ getIsoWeekdays.byDayLoop items, _
    induction items with
    | nil => intro x hx; exact absurd hx (List.not_mem_nil x)
    | cons it rest ih =>
      intro x hx
      show 1 ≤ x ∧ x ≤ 7
      revert hx
      show x ∈ getIsoWeekdays.byDayLoop (it :: rest) → _
      intro hx
      rw [show getIsoWeekdays.byDayLoop (it :: rest)
        = (match (if jsIncludes it "Monday" then some (1 : Int)
            else if jsIncludes it "Tuesday" then some 2
            else if jsIncludes it "Wednesday" then some 3
            else if jsIncludes it "Thursday" then some 4
            else if jsIncludes it "Friday" then some 5
            else if jsIncludes it "Saturday" then some 6
            else if jsIncludes it "Sunday" then some 7
            else none) with
          | some w => w :: getIsoWeekdays.byDayLoop rest
          | none => getIsoWeekdays.byDayLoop rest) from rfl] at hx
      cases hc : (if jsIncludes it "Monday" then some (1 : Int)
            else if jsIncludes it "Tuesday" then some 2
            else if jsIncludes it "Wednesday" then some 3
            else if jsIncludes it "Thursday" then some 4
            else if jsIncludes it "Friday" then some 5
            else if jsIncludes it "Saturday" then some 6
            else if jsIncludes it "Sunday" then some 7
            else none) with
      | some w =>
        rw [hc] at hx
        rcases List.mem_cons.mp hx with rfl | hx2
        · exact getIsoWeekdays_byDayChain_bounds it x hc
        · exact ih x hx2
      | none =>
        rw [hc] at hx
        exact ih x hx

theorem jsRem_small (a : Int) (h1 : -6 ≤ a) (h2 : a ≤ 6) : jsRem a 7 = a := by
  unfold jsRem
  split_ifs with h
  · exact Int.emod_eq_of_lt h (by omega)
  · have hpos : 0 ≤ -a := by omega
    rw [Int.emod_eq_of_lt hpos (by omega)]
    omega

theorem isoWeekdayOffsets_eq_sub (s : MinimalEventSchedule) (e : Int) :
    isoWeekdayOffsets s e
      = (jsSort (getIsoWeekdays s.byDay s.startDate)).map
          (fun w => w - isoWeekdayOfMoment e) := by
  unfold isoWeekdayOffsets
  apply List.map_congr_left
  intro w hw
  have hwb := getIsoWeekdays_bounds s.byDay s.startDate w ((mem_jsSort w _).mp hw)
  have heb : 1 ≤ isoWeekdayOfMoment e ∧ isoWeekdayOfMoment e ≤ 7 := isoWeekdayOfDay_bounds _
  exact jsRem_small _ (by omega) (by omega)

theorem isoWeekdayOffsets_bounds (s : MinimalEventSchedule) (e : Int) :
    ∀ o ∈ isoWeekdayOffsets s e, -6 ≤ o ∧ o ≤ 6 := by
  rw [isoWeekdayOffsets_eq_sub]
  intro o ho
  rcases List.mem_map.mp ho with ⟨w, hw, rfl⟩
  have hwb := getIsoWeekdays_bounds s.byDay s.startDate w ((mem_jsSort w _).mp hw)
  have heb : 1 ≤ isoWeekdayOfMoment e ∧ isoWeekdayOfMoment e ≤ 7 := isoWeekdayOfDay_bounds _
  omega

theorem isoWeekdayOffsets_span (s : MinimalEventSchedule) (e : Int) :
    ∀ o1 ∈ isoWeekdayOffsets s e, ∀ o2 ∈ isoWeekdayOffsets s e, o2 - o1 ≤ 6 := by
  rw [isoWeekdayOffsets_eq_sub]
  intro o1 h1 o2 h2
  rcases List.mem_map.mp h1 with ⟨w1, hw1, rfl⟩
  rcases List.mem_map.mp h2 with ⟨w2, hw2, rfl⟩
  have hb1 := getIsoWeekdays_bounds s.byDay s.startDate w1 ((mem_jsSort w1 _).mp hw1)
  have hb2 := getIsoWeekdays_bounds s.byDay s.startDate w2 ((mem_jsSort w2 _).mp hw2)
  omega

theorem generateFromWeek_mem_bounds (earliest latest : Int) (offsets : List Int)
    (hlo : ∀ o ∈ offsets, -6 ≤ o) :
    ∀ (fuel w : Nat) (dates : List Int),
      generateFromWeek earliest latest offsets fuel w = some dates →
      ∀ d ∈ dates, earliest ≤ d ∧ d ≤ latest := by
  intro fuel
  induction fuel with
  | zero => intro w dates h; exact Option.noConfusion h
  | succ n ih =>
    intro w dates h
    have hcand : ∀ d ∈ weekCandidates earliest offsets w, earliest ≤ d := by
      intro d hd
      rcases weekCandidates_mem earliest offsets w d hd with ⟨o, ho, rfl, hw0⟩
      have hob := hlo o ho
      unfold addDays minutesPerDay
      by_cases hw : w = 0
      · have := hw0 hw
        subst hw
        omega
      · have hw1 : 1 ≤ (w : Int) := by
          have : 1 ≤ w := Nat.one_le_iff_ne_zero.mpr hw
          exact_mod_cast this
        nlinarith
    rw [show generateFromWeek earliest latest offsets (n + 1) w
      = (match takeUntilAfter latest (weekCandidates earliest offsets w) with
        | (emitted, true) => some emitted
        | (emitted, false) =>
          (generateFromWeek earliest latest offsets n (w + 1)).map
            (fun rest => emitted ++ rest)) from rfl] at h
    cases htake : takeUntilAfter latest (weekCandidates earliest offsets w) with
    | mk emitted stopped =>
      rw [htake] at h
      have hemit : ∀ d ∈ emitted, earliest ≤ d ∧ d ≤ latest := by
        intro d hd
        have hm := takeUntilAfter_mem latest (weekCandidates earliest offsets w) d
          (by rw [htake] at *; exact hd)
        exact ⟨hcand d hm.1, hm.2⟩
      cases stopped with
      | true =>
        injection h with h2
        subst h2
        exact hemit
      | false =>
        rcases Option.map_eq_some'.mp h with ⟨rest, hrest, rfl⟩
        intro d hd
        rcases List.mem_append.mp hd with hd1 | hd2
        · exact hemit d hd1
        · exact ih (w + 1) rest hrest d hd2

theorem earliestMoment_ge_now (s : MinimalEventSchedule) (now : Int)
    (hst : 0 ≤ s.startTime) : now ≤ earliestMoment s now := by
  have hdiv : minutesPerDay * (now / minutesPerDay) + now % minutesPerDay = now :=
    Int.ediv_add_emod now minutesPerDay
  have hmod : now % minutesPerDay < minutesPerDay :=
    Int.emod_lt_of_pos now (by norm_num [minutesPerDay])
  have hnext : now ≤ nextStartTimeAfterNow s now := by
    unfold nextStartTimeAfterNow combineDayAndTime dayOf addDays
    dsimp only
    split_ifs with h
    · unfold minutesPerDay at *
      omega
    · unfold minutesPerDay at *
      omega
  unfold earliestMoment
  dsimp only
  cases s.startDate with
  | none => exact hnext
  | some sd =>
    dsimp only
    split_ifs with h
    · exact hnext
    · omega

theorem latestMoment_le_window (s : MinimalEventSchedule) (now : Int) :
    latestMoment s now ≤ addDays now (scheduleTimeWindowInWeeks * 7) := by
  unfold latestMoment
  dsimp only
  cases s.endDate with
  | none => exact le_refl _
  | some ed =>
    dsimp only
    split_ifs with h
    · exact le_refl _
    · omega

/-! ## Claim C1 -/

/-- A schedule that the JOI schema accepts (`byDay` is a non-empty array
of strings) but whose entries name no recognized weekday: the iCal-style
`byDay = ["MO"]`. -/
def unrecognizedByDaySchedule : MinimalEventSchedule :=
  { byDay := some ["MO"], startTime := 1080, endTime := 1140,
    startDate := none, endDate := none,
    idTemplate := "session-{startDate}", duration := none }

/-- Claim C1 (code bug): the claim says that every schedule accepted by
structural validation expands to a finite sequence, and that an empty
derived weekday set yields the empty sequence.  `unrecognizedByDaySchedule`
is accepted by validation, derives an empty weekday set, and the generator
then never completes for any amount of fuel: the inner week loop advances
forever without emitting a date (the source comments acknowledge exactly
this hazard).  The spec requires the empty sequence instead. -/
theorem c1_empty_weekday_set_never_terminates :
    minimalEventScheduleAccepted unrecognizedByDaySchedule = true ∧
    getIsoWeekdays unrecognizedByDaySchedule.byDay unrecognizedByDaySchedule.startDate = [] ∧
    ∀ fuel : Nat, generateDatesWithinTimeWindow fuel unrecognizedByDaySchedule 0 = none := by
  refine ⟨by decide, by decide, ?_⟩
  intro fuel
  rw [show generateDatesWithinTimeWindow fuel unrecognizedByDaySchedule 0
    = (if latestMoment unrecognizedByDaySchedule 0 < earliestMoment unrecognizedByDaySchedule 0
      then some []
      else (generateFromWeek (earliestMoment unrecognizedByDaySchedule 0)
        (latestMoment unrecognizedByDaySchedule 0)
        (isoWeekdayOffsets unrecognizedByDaySchedule
          (earliestMoment unrecognizedByDaySchedule 0)) fuel 0).map
          (fun dates => dates.map (mkScheduledSession unrecognizedByDaySchedule)))
    from rfl]
  rw [if_neg (by decide)]
  rw [show isoWeekdayOffsets unrecognizedByDaySchedule
      (earliestMoment unrecognizedByDaySchedule 0) = [] from by decide]
  rw [generateFromWeek_nil_offsets]
  rfl

/-! ## Claim C7 -/

/-- Claim C7: every persisted occurrence start date lies at or after the
processing-time `now` and within the configured forward window — the
one-week window for occurrences received from the feed (the per-item
filter of `processScheduledSessionItems` only lets an item through to the
merge-and-persist step under these bounds), and the four-week window for
occurrences produced by the recurrence expander (every emitted start
moment lies between `now` and `now + 4 weeks`, for any schedule whose
`startTime` is a valid time of day). -/
theorem c7_persisted_occurrences_within_window :
    (∀ (hash : String → String) (seriesStore : String → Option JObj) (now : Int)
        (item : ScheduledSessionItemView) (sd : Int),
      processScheduledSessionItemDecision hash seriesStore now item = some sd →
      now ≤ sd ∧ sd ≤ addDays now (weeksInFutureTimeWindow * 7)) ∧
    (∀ (s : MinimalEventSchedule) (now : Int) (fuel : Nat)
        (l : List GeneratedScheduledSession),
      0 ≤ s.startTime →
      generateDatesWithinTimeWindow fuel s now = some l →
      ∀ sess ∈ l, now ≤ sess.startDate ∧
        sess.startDate ≤ addDays now (scheduleTimeWindowInWeeks * 7)) := by
  constructor
  · intro hash seriesStore now item sd h
    unfold processScheduledSessionItemDecision at h
    split at h
    · exact Option.noConfusion h
    split at h
    · exact Option.noConfusion h
    split at h
    · exact Option.noConfusion h
    split at h
    · exact Option.noConfusion h
    split at h
    · exact Option.noConfusion h
    split at h
    · exact Option.noConfusion h
    split at h
    · exact Option.noConfusion h
    injection h with h6
    subst h6
    unfold addDays weeksInFutureTimeWindow minutesPerDay at *
    omega
  · intro s now fuel l hst hgen sess hmem
    rw [show generateDatesWithinTimeWindow fuel s now
      = (if latestMoment s now < earliestMoment s now then some []
        else (generateFromWeek (earliestMoment s now) (latestMoment s now)
          (isoWeekdayOffsets s (earliestMoment s now)) fuel 0).map
            (fun dates => dates.map (mkScheduledSession s))) from rfl] at hgen
    split_ifs at hgen with hshort
    · injection hgen with h2
      subst h2
      exact absurd hmem (List.not_mem_nil sess)
    · rcases Option.map_eq_some'.mp hgen with ⟨dates, hdates, rfl⟩
      rcases List.mem_map.mp hmem with ⟨d, hd, rfl⟩
      have hbounds := generateFromWeek_mem_bounds (earliestMoment s now) (latestMoment s now)
        (isoWeekdayOffsets s (earliestMoment s now))
        (fun o ho => (isoWeekdayOffsets_bounds s (earliestMoment s now) o ho).1)
        fuel 0 dates hdates d hd
      have hge := earliestMoment_ge_now s now hst
      have hle := latestMoment_le_window s now
      constructor
      · show now ≤ d
        omega
      · show d ≤ addDays now (scheduleTimeWindowInWeeks * 7)
        omega

/-- Witness for C7 at concrete inputs: a feed occurrence that survives
every filter, and a generated occurrence from a Monday schedule. -/
theorem c7_persisted_occurrences_within_window_witness :
    (0 : Int) ≤ 100 ∧ (100 : Int) ≤ addDays 0 (weeksInFutureTimeWindow * 7) ∧
    (0 : Int) ≤ 600 ∧ (600 : Int) ≤ addDays 0 (scheduleTimeWindowInWeeks * 7) := by
  have ha := c7_persisted_occurrences_within_window.1
    (fun _ => "H1") (fun h => if h = "H1" then some [("id", JVal.vstr "ser-1")] else none)
    0 { state := "updated", id := some "occ-1", startDate := some 100, superEvent := "ser-1" }
    100 (by decide)
  have hb := c7_persisted_occurrences_within_window.2
    { byDay := some ["Monday"], startTime := 600, endTime := 660, startDate := none,
      endDate := none, idTemplate := "e", duration := none }
    0 10 [⟨"e", 600, 660, none⟩, ⟨"e", 10680, 10740, none⟩, ⟨"e", 20760, 20820, none⟩,
      ⟨"e", 30840, 30900, none⟩]
    (by decide) (by decide) ⟨"e", 600, 660, none⟩ (by decide)
  exact ⟨ha.1, ha.2, hb.1, hb.2⟩

/-! ## Claim C8 -/

theorem weekCandidates_pairwise_le (earliest : Int) (offsets : List Int) (w : Nat)
    (hs : List.Pairwise (· ≤ ·) offsets) :
    List.Pairwise (· ≤ ·) (weekCandidates earliest offsets w) := by
  unfold weekCandidates
  have hbase : List.Pairwise (· ≤ ·)
      (if w = 0 then offsets.filter (fun o => decide (0 ≤ o)) else offsets) := by
    split_ifs with hw
    · exact hs.filter _
    · exact hs
  exact List.Pairwise.map _
    (fun a b hab => by unfold addDays minutesPerDay; omega) hbase

theorem weekCandidates_pairwise_lt (earliest : Int) (offsets : List Int) (w : Nat)
    (hs : List.Pairwise (· < ·) offsets) :
    List.Pairwise (· < ·) (weekCandidates earliest offsets w) := by
  unfold weekCandidates
  have hbase : List.Pairwise (· < ·)
      (if w = 0 then offsets.filter (fun o => decide (0 ≤ o)) else offsets) := by
    split_ifs with hw
    · exact hs.filter _
    · exact hs
  exact List.Pairwise.map _
    (fun a b hab => by unfold addDays minutesPerDay; omega) hbase

theorem weekCandidates_cross (earliest : Int) (offsets : List Int)
    (hspan : ∀ o1 ∈ offsets, ∀ o2 ∈ offsets, o2 - o1 ≤ 6)
    (w w2 : Nat) (hw : w < w2) :
    ∀ d1 ∈ weekCandidates earliest offsets w,
    ∀ d2 ∈ weekCandidates earliest offsets w2, d1 < d2 := by
  intro d1 h1 d2 h2
  rcases weekCandidates_mem _ _ _ _ h1 with ⟨o1, ho1, rfl, _⟩
  rcases weekCandidates_mem _ _ _ _ h2 with ⟨o2, ho2, rfl, _⟩
  have hs := hspan o2 ho2 o1 ho1
  have hww : (w : Int) < (w2 : Int) := by exact_mod_cast hw
  unfold addDays minutesPerDay
  omega

theorem generateFromWeek_pairwise (r : Int → Int → Prop)
    (earliest latest : Int) (offsets : List Int)
    (hblock : ∀ w : Nat, List.Pairwise r (weekCandidates earliest offsets w))
    (hcross : ∀ (w w2 : Nat), w < w2 →
      ∀ d1 ∈ weekCandidates earliest offsets w,
      ∀ d2 ∈ weekCandidates earliest offsets w2, r d1 d2) :
    ∀ (fuel w : Nat) (dates : List Int),
      generateFromWeek earliest latest offsets fuel w = some dates →
      List.Pairwise r dates ∧
      ∀ d ∈ dates, ∃ w2 : Nat, w ≤ w2 ∧ d ∈ weekCandidates earliest offsets w2 := by
  intro fuel
  induction fuel with
  | zero => intro w dates h; exact Option.noConfusion h
  | succ n ih =>
    intro w dates h
    rw [show generateFromWeek earliest latest offsets (n + 1) w
      = (match takeUntilAfter latest (weekCandidates earliest offsets w) with
        | (emitted, true) => some emitted
        | (emitted, false) =>
          (generateFromWeek earliest latest offsets n (w + 1)).map
            (fun rest => emitted ++ rest)) from rfl] at h
    cases htake : takeUntilAfter latest (weekCandidates earliest offsets w) with
    | mk emitted stopped =>
      rw [htake] at h
      have hsub : emitted.Sublist (weekCandidates earliest offsets w) := by
        have := takeUntilAfter_sublist latest (weekCandidates earliest offsets w)
        rw [htake] at this
        exact this
      have hemitp : List.Pairwise r emitted := List.Pairwise.sublist hsub (hblock w)
      have hemitm : ∀ d ∈ emitted, d ∈ weekCandidates earliest offsets w :=
        fun d hd => List.Sublist.subset hsub hd
      cases stopped with
      | true =>
        injection h with h2
        subst h2
        exact ⟨hemitp, fun d hd => ⟨w, le_refl w, hemitm d hd⟩⟩
      | false =>
        rcases Option.map_eq_some'.mp h with ⟨rest, hrest, rfl⟩
        have hr := ih (w + 1) rest hrest
        constructor
        · rw [List.pairwise_append]
          refine ⟨hemitp, hr.1, ?_⟩
          intro a ha b hb
          rcases hr.2 b hb with ⟨w2, hw2, hbw⟩
          exact hcross w w2 (by omega) a (hemitm a ha) b hbw
        · intro d hd
          rcases List.mem_append.mp hd with hd1 | hd2
          · exact ⟨w, le_refl w, hemitm d hd1⟩
          · rcases hr.2 d hd2 with ⟨w2, hw2, hdw⟩
            exact ⟨w2, by omega, hdw⟩

/-- Claim C8 (counterexample): the claim says emitted occurrences are
strictly chronologically increasing for every valid schedule; a schedule
whose `byDay` derives the same weekday twice (here two spellings of
Monday both map to 1) emits each date twice, so consecutive emitted
occurrences share the same start instant. -/
theorem c8_duplicate_weekdays_break_strictness :
    (generateDatesWithinTimeWindow 100
      { byDay := some ["Monday", "https://schema.org/Monday"], startTime := 600,
        endTime := 660, startDate := none, endDate := none, idTemplate := "e",
        duration := none } 0).map (fun l => l.map (fun sess => sess.startDate))
      = some [600, 600, 10680, 10680, 20760, 20760, 30840, 30840] ∧
    ¬ List.Pairwise (· < ·)
      ([600, 600, 10680, 10680, 20760, 20760, 30840, 30840] : List Int) := by
  exact ⟨by decide, by decide⟩

/-- Claim C8 (amended): the emitted start instants are chronologically
nondecreasing for every schedule and every completed run; they are
strictly increasing whenever the derived weekday list contains no
duplicates. -/
theorem c8_expansion_ordering (s : MinimalEventSchedule) (now : Int) (fuel : Nat)
    (l : List GeneratedScheduledSession)
    (h : generateDatesWithinTimeWindow fuel s now = some l) :
    List.Pairwise (· ≤ ·) (l.map (fun sess => sess.startDate)) ∧
    (List.Nodup (getIsoWeekdays s.byDay s.startDate) →
      List.Pairwise (· < ·) (l.map (fun sess => sess.startDate))) := by
  rw [show generateDatesWithinTimeWindow fuel s now
    = (if latestMoment s now < earliestMoment s now then some []
      else (generateFromWeek (earliestMoment s now) (latestMoment s now)
        (isoWeekdayOffsets s (earliestMoment s now)) fuel 0).map
          (fun dates => dates.map (mkScheduledSession s))) from rfl] at h
  split_ifs at h with hshort
  · injection h with h2
    subst h2
    exact ⟨by simp, fun _ => by simp⟩
  · rcases Option.map_eq_some'.mp h with ⟨dates, hdates, rfl⟩
    have hmap : ((dates.map (mkScheduledSession s)).map (fun sess => sess.startDate))
        = dates := by
      rw [List.map_map]
      exact List.map_id dates
    rw [hmap]
    have hsorted : List.Pairwise (· ≤ ·) (isoWeekdayOffsets s (earliestMoment s now)) := by
      rw [isoWeekdayOffsets_eq_sub]
      refine List.Pairwise.map _ ?_ (jsSort_sorted _)
      intro a b hab
      omega
    have hspan := isoWeekdayOffsets_span s (earliestMoment s now)
    constructor
    · exact (generateFromWeek_pairwise (· ≤ ·) _ _ _
        (fun w => weekCandidates_pairwise_le _ _ w hsorted)
        (fun w w2 hw d1 h1 d2 h2 =>
          le_of_lt (weekCandidates_cross _ _ hspan w w2 hw d1 h1 d2 h2))
        fuel 0 dates hdates).1
    · intro hnd
      have hnds : (jsSort (getIsoWeekdays s.byDay s.startDate)).Nodup :=
        ((jsSort_perm _).nodup_iff).mpr hnd
      have hlt : List.Pairwise (· < ·) (isoWeekdayOffsets s (earliestMoment s now)) := by
        rw [isoWeekdayOffsets_eq_sub]
        refine List.Pairwise.map _ ?_ (List.Pairwise.and (jsSort_sorted _) hnds)
        intro a b hab
        rcases hab with ⟨h1, h2⟩
        omega
      exact (generateFromWeek_pairwise (· < ·) _ _ _
        (fun w => weekCandidates_pairwise_lt _ _ w hlt)
        (weekCandidates_cross _ _ hspan)
        fuel 0 dates hdates).1

/-- Witness for C8 (amended) at a concrete input: a single-Monday
schedule whose four emitted dates are nondecreasing and (the weekday list
being duplicate-free) strictly increasing. -/
theorem c8_expansion_ordering_witness :
    List.Pairwise (· ≤ ·) ([600, 10680, 20760, 30840] : List Int) ∧
    List.Pairwise (· < ·) ([600, 10680, 20760, 30840] : List Int) := by
  have h := c8_expansion_ordering
    { byDay := some ["Monday"], startTime := 600, endTime := 660, startDate := none,
      endDate := none, idTemplate := "e", duration := none }
    0 10
    [⟨"e", 600, 660, none⟩, ⟨"e", 10680, 10740, none⟩, ⟨"e", 20760, 20820, none⟩,
      ⟨"e", 30840, 30900, none⟩]
    (by decide)
  exact ⟨h.1, h.2 (by decide)⟩
